import Mathlib

/-!
Verification of the pugpug migration-state engine (`pugpug.py`).

The engine keeps, per live database, a sequence of migration records (slug →
record), a per-table content-addressed history of schema texts, and a derived
index (`table_transforms`, `simple_starts`, `seen`) rebuilt from the sequence.
Python dictionaries are modelled as association lists with first-match lookup
and in-place overwrite on insert (matching `d[k] = v`); Python sets are
modelled as lists with membership-checked insertion.  The SHA-1 content hash
`string_sha` is kept abstract: every definition is parametric in a hash
function `H : String → String`, so the theorems hold for any hash, SHA-1
included.  Python's `sorted` on strings compares code points lexicographically;
`strLe`/`sortKeys` below implement exactly that order.  Where the source
iterates over a Python `set` (whose order is unspecified), the model iterates
in sorted order — all statements proved are insensitive to that choice.
-/

/-- First-match lookup in an association list (Python `d.get(k)` / `d[k]`). -/
def dget {β : Type} : List (String × β) → String → Option β
  | [], _ => none
  | (k', v) :: rest, k => if k = k' then some v else dget rest k

/-- In-place insert (Python `d[k] = v`): overwrite the first binding of `k`
if present, else append at the end (dicts preserve insertion order). -/
def dinsert {β : Type} : List (String × β) → String → β → List (String × β)
  | [], k, v => [(k, v)]
  | (k', v') :: rest, k, v =>
    if k = k' then (k, v) :: rest else (k', v') :: dinsert rest k v

/-- Key list of an association list (Python `d.keys()`). -/
def dkeys {β : Type} (l : List (String × β)) : List String := l.map Prod.fst

/-- Two-level lookup (Python `d.get(t, {}).get(h, None)`). -/
def dget2 {β : Type} (l : List (String × List (String × β))) (t h : String) :
    Option β :=
  dget ((dget l t).getD []) h

/-- Set insertion (Python `s.add(x)`): only membership is ever consumed. -/
def sadd (s : List String) (x : String) : List String :=
  if x ∈ s then s else s ++ [x]

/-- Code-point-lexicographic `≤` on character lists: the comparison Python
uses for `sorted`/`max` on strings. -/
def strLeAux : List Char → List Char → Bool
  | [], _ => true
  | _ :: _, [] => false
  | a :: as, b :: bs =>
    if Nat.blt a.toNat b.toNat then true
    else if Nat.blt b.toNat a.toNat then false
    else strLeAux as bs

/-- Code-point-lexicographic strict `<` on character lists. -/
def strLtAux : List Char → List Char → Bool
  | [], [] => false
  | [], _ :: _ => true
  | _ :: _, [] => false
  | a :: as, b :: bs =>
    if Nat.blt a.toNat b.toNat then true
    else if Nat.blt b.toNat a.toNat then false
    else strLtAux as bs

/-- String `≤` (Python string comparison). -/
def strLe (a b : String) : Bool := strLeAux a.data b.data

/-- String `<` (Python string comparison). -/
def strLt (a b : String) : Bool := strLtAux a.data b.data

/-- The `≤` order on strings as a relation, for use with `insertionSort`. -/
def strle (a b : String) : Prop := strLe a b = true

instance : DecidableRel strle := fun a b => decEq (strLe a b) true

theorem char_toNat_inj {a b : Char} (h : a.toNat = b.toNat) : a = b :=
  Char.ext (UInt32.ext h)

theorem strLeAux_total : ∀ as bs : List Char,
    strLeAux as bs = true ∨ strLeAux bs as = true := by
  intro as
  induction as with
  | nil => intro bs; left; rfl
  | cons a as ih =>
    intro bs
    cases bs with
    | nil => right; rfl
    | cons b bs =>
      simp only [strLeAux]
      rcases Nat.lt_trichotomy a.toNat b.toNat with h | h | h
      · left; simp [Nat.blt_eq, h]
      · have h1 : ¬ a.toNat < b.toNat := by omega
        have h2 : ¬ b.toNat < a.toNat := by omega
        simpa [Nat.blt_eq, h1, h2] using ih bs
      · right; simp [Nat.blt_eq, h]

theorem strLeAux_trans : ∀ as bs cs : List Char,
    strLeAux as bs = true → strLeAux bs cs = true → strLeAux as cs = true := by
  intro as
  induction as with
  | nil => intro bs cs _ _; rfl
  | cons a as ih =>
    intro bs cs hab hbc
    cases bs with
    | nil => simp [strLeAux] at hab
    | cons b bs =>
      cases cs with
      | nil => simp [strLeAux] at hbc
      | cons c cs =>
        simp only [strLeAux, Nat.blt_eq] at hab hbc ⊢
        by_cases h1 : a.toNat < b.toNat
        · by_cases h2 : b.toNat < c.toNat
          · have hac : a.toNat < c.toNat := by omega
            simp [hac]
          · have hcb : ¬ c.toNat < b.toNat := by
              intro hc; simp [h2, hc] at hbc
            have hac : a.toNat < c.toNat := by omega
            simp [hac]
        · have hba : ¬ b.toNat < a.toNat := by
            intro hc; simp [h1, hc] at hab
          have hab1 : strLeAux as bs = true := by simpa [h1, hba] using hab
          by_cases h2 : b.toNat < c.toNat
          · have hac : a.toNat < c.toNat := by omega
            simp [hac]
          · have hcb : ¬ c.toNat < b.toNat := by
              intro hc; simp [h2, hc] at hbc
            have hbc1 : strLeAux bs cs = true := by simpa [h2, hcb] using hbc
            have hac : ¬ a.toNat < c.toNat := by omega
            have hca : ¬ c.toNat < a.toNat := by omega
            simpa [hac, hca] using ih bs cs hab1 hbc1

theorem strLeAux_antisymm : ∀ as bs : List Char,
    strLeAux as bs = true → strLeAux bs as = true → as = bs := by
  intro as
  induction as with
  | nil =>
    intro bs _ hba
    cases bs with
    | nil => rfl
    | cons b bs => simp [strLeAux] at hba
  | cons a as ih =>
    intro bs hab hba
    cases bs with
    | nil => simp [strLeAux] at hab
    | cons b bs =>
      simp only [strLeAux, Nat.blt_eq] at hab hba
      by_cases h1 : a.toNat < b.toNat
      · have : ¬ b.toNat < a.toNat := by omega
        simp [h1, this] at hba
      · by_cases h2 : b.toNat < a.toNat
        · simp [h1, h2] at hab
        · simp [h1, h2] at hab hba
          have : a = b := char_toNat_inj (by omega)
          rw [this, ih bs hab hba]

instance : IsTotal String strle :=
  ⟨fun a b => strLeAux_total a.data b.data⟩

instance : IsTrans String strle :=
  ⟨fun a b c => strLeAux_trans a.data b.data c.data⟩

instance : IsAntisymm String strle :=
  ⟨fun a b hab hba => by
    cases a; cases b
    exact congrArg String.mk (strLeAux_antisymm _ _ hab hba)⟩

/-- Python `sorted` on a list of strings. -/
def sortKeys (l : List String) : List String := List.insertionSort strle l

/-- Python `max` over a list of strings (`ValueError`, i.e. `none`, on `[]`). -/
def maxKey : List String → Option String
  | [] => none
  | k :: rest =>
    match maxKey rest with
    | none => some k
    | some m => some (if strLt m k = true then k else m)

/-- One entry of a live snapshot: `table_summary` returns
`dict(sql=sql, sha=string_sha(sql))`. -/
structure TableInfo where
  sql : String
  sha : String
deriving DecidableEq, Repr

/-- A live snapshot: table name → `TableInfo` (from `db_summary`). -/
abbrev Snap := List (String × TableInfo)

/-- Table name → hash, as produced by `snap_to_shas`. -/
abbrev Shas := List (String × String)

/-- A migration record, as built by `add_migration`:
`{'comment':…, 'start_shas':…, 'end_shas':…, 'sql_sha':…}`. -/
structure Mig where
  comment : String
  start_shas : Shas
  end_shas : Shas
  sql_sha : String
deriving DecidableEq, Repr

/-- The in-memory fields of `PugPugState`. -/
structure PugPugState where
  seq : List (String × Mig)
  table_transforms : List (String × List (String × String))
  simple_starts : List (String × String)
  seen : List String
  tables : List (String × List (String × String))
deriving DecidableEq, Repr

section Engine

variable (H : String → String)

/-- `EMPTYSHA = string_sha("")`: the reserved hash of the empty schema. -/
def EMPTYSHA : String := H ""

/-- `snap_to_shas`: strip the sql text, keep table → sha. -/
def snap_to_shas (snap : Snap) : Shas :=
  snap.map (fun p => (p.1, p.2.sha))

/-- `snap_sha`: the joint aggregate hash — `"k=v"` entries for the present
keys in sorted order, joined with `"&"`, then hashed. -/
def snap_sha (m : Shas) : String :=
  H (String.intercalate "&"
    ((sortKeys (dkeys m)).map (fun k => k ++ "=" ++ (dget m k).getD "")))

/-- The in-memory effect of `init_from_zero` (the filesystem side is
external): every field reset to empty. -/
def empty_state : PugPugState :=
  { seq := [], table_transforms := [], simple_starts := [], seen := [],
    tables := [] }

/-- Body of the per-table loop of `index_migration`.  The accumulator carries
the state plus the list of `(table, start_sha)` pairs for which the code
prints the "multiple transforms" warning.  Note the source assigns
`table_transforms[table][start_sha] = slug` unconditionally after warning. -/
def index_step (slug : String) (mig : Mig)
    (acc : PugPugState × List (String × String)) (table : String) :
    PugPugState × List (String × String) :=
  let st := acc.1
  let tt0 := if (dget st.table_transforms table).isSome then
    st.table_transforms else dinsert st.table_transforms table []
  let s := (dget mig.start_shas table).getD (EMPTYSHA H)
  let e := (dget mig.end_shas table).getD (EMPTYSHA H)
  let seen1 := sadd (sadd st.seen s) e
  if s = e then ({ st with table_transforms := tt0, seen := seen1 }, acc.2)
  else
    let tt1 := dinsert tt0 table (dinsert ((dget tt0 table).getD []) s slug)
    ({ st with table_transforms := tt1, seen := seen1 },
      if (dget2 tt0 table s).isSome then acc.2 ++ [(table, s)] else acc.2)

/-- `index_migration(slug, mig)`: record the joint start hash in
`simple_starts`, then walk `set(start_shas) | set(end_shas)` (set iteration
order is unspecified in Python; modelled sorted) updating `seen` and
`table_transforms`.  Returns the new state and the warnings printed. -/
def index_migration (st : PugPugState) (slug : String) (mig : Mig) :
    PugPugState × List (String × String) :=
  let st1 := { st with
    simple_starts := dinsert st.simple_starts (snap_sha H mig.start_shas) slug }
  (sortKeys ((dkeys mig.start_shas ++ dkeys mig.end_shas).dedup)).foldl
    (index_step H slug mig) (st1, [])

/-- `update_table_snaps`: for each table of the snapshot, store its schema
text under its hash unless that hash is already present. -/
def update_table_snaps (db_snapshot : Snap) (st : PugPugState) : PugPugState :=
  db_snapshot.foldl (fun st p =>
    let cur := (dget st.tables p.1).getD []
    let cur1 := if (dget cur p.2.sha).isSome then cur
      else dinsert cur p.2.sha p.2.sql
    { st with tables := dinsert st.tables p.1 cur1 }) st

/-- `add_migration`: build the record from the two snapshots, insert it into
the sequence, index it, and archive the end snapshot's texts. -/
def add_migration (st : PugPugState) (slug comment sql : String)
    (start_snap end_snap : Snap) : PugPugState :=
  let mig : Mig :=
    { comment := comment, start_shas := snap_to_shas start_snap,
      end_shas := snap_to_shas end_snap, sql_sha := H sql }
  let st1 := { st with seq := dinsert st.seq slug mig }
  let st2 := (index_migration H st1 slug mig).1
  update_table_snaps end_snap st2

/-- Body of `check_validity` after the `self.seq[slug]` lookup: walk the
union of start/end keys; a changed table (start ≠ end) is bad when its live
hash (default `EMPTYSHA`) differs from the start hash (pre) or the end hash
(post).  Returns `none` for "no violations", else the bad tables. -/
def check_validity_mig (mig : Mig) (db_snap : Snap) (postrun : Bool) :
    Option (List String) :=
  let db_shas := snap_to_shas db_snap
  let bad := (sortKeys ((dkeys mig.start_shas ++ dkeys mig.end_shas).dedup)).filter
    (fun name =>
      let s := (dget mig.start_shas name).getD (EMPTYSHA H)
      let e := (dget mig.end_shas name).getD (EMPTYSHA H)
      let live := (dget db_shas name).getD (EMPTYSHA H)
      if s = e then false
      else if s ≠ live ∧ postrun = false then true
      else postrun = true ∧ e ≠ live)
  if bad.isEmpty then none else some bad

/-- `check_validity(slug, db_snap, postrun)`; the outer `Option` is the
`self.seq[slug]` lookup, which raises `KeyError` (`none`) for an unknown
slug. -/
def check_validity (st : PugPugState) (slug : String) (db_snap : Snap)
    (postrun : Bool) : Option (Option (List String)) :=
  (dget st.seq slug).map (fun mig => check_validity_mig H mig db_snap postrun)

/-- `is_up_to_date`: compare the live joint hash with the joint end hash of
the lexicographically greatest slug; `max` of an empty key list raises
(`none`). -/
def is_up_to_date (st : PugPugState) (db_snap : Snap) : Option Bool :=
  match maxKey (dkeys st.seq) with
  | none => none
  | some k =>
    (dget st.seq k).map (fun m =>
      snap_sha H (snap_to_shas db_snap) = snap_sha H m.end_shas)

/-- `find_next_migration_simple`: look the live joint hash up in
`simple_starts`. -/
def find_next_migration_simple (st : PugPugState) (db_snap : Snap) :
    Option String :=
  dget st.simple_starts (snap_sha H (snap_to_shas db_snap))

/-- Per-table body of `find_next_migration_advanced`.  The accumulator is
`(error, next_migs)`: a table with no applicable transform is an error
exactly when its live hash was never seen; otherwise it joins the group of
the slug its transform points to. -/
def adv_step (st : PugPugState) (db_shas : Shas)
    (acc : List String × List (String × List String)) (table : String) :
    List String × List (String × List String) :=
  let table_sha := (dget db_shas table).getD (EMPTYSHA H)
  match dget2 st.table_transforms table table_sha with
  | none => if table_sha ∈ st.seen then acc else (acc.1 ++ [table], acc.2)
  | some slug =>
    (acc.1, dinsert acc.2 slug (((dget acc.2 slug).getD []) ++ [table]))

/-- The scan of `find_next_migration_advanced` over
`set(db_snap) | set(self.tables)` (set iteration modelled sorted): returns
the error tables (printed as "unknown state"/"unknown table") and the
`next_migs` grouping slug → tables. -/
def adv_scan (st : PugPugState) (db_snap : Snap) :
    List String × List (String × List String) :=
  let db_shas := snap_to_shas db_snap
  (sortKeys ((dkeys db_snap ++ dkeys st.tables).dedup)).foldl
    (adv_step H st db_shas) ([], [])

/-- `find_next_migration_advanced`: the function's return value is
`next_migs` when non-empty, else `None`; the collected errors are only
printed, never returned — they are the first component here. -/
def find_next_migration_advanced (st : PugPugState) (db_snap : Snap) :
    List String × Option (List (String × List String)) :=
  let p := adv_scan H st db_snap
  (p.1, if p.2.isEmpty then none else some p.2)

/-- The in-memory effect of `load_all`: set `seq`, rebuild the index by
indexing every migration (dict iteration order unspecified; modelled in list
order), then load the history of every table in `table_transforms` — the
per-table file contents are external input, abstracted as `tableData`. -/
def load_state (tableData : String → List (String × String))
    (migs : List (String × Mig)) : PugPugState :=
  let st0 : PugPugState := { empty_state with seq := migs }
  let st1 := migs.foldl (fun st p => (index_migration H st p.1 p.2).1) st0
  { st1 with
    tables := (dkeys st1.table_transforms).map (fun t => (t, tableData t)) }

end Engine

/-- A wall-clock instant as consumed by `datetime.strftime`. -/
structure DateTime where
  year : Nat
  month : Nat
  day : Nat
  hour : Nat
  minute : Nat
  second : Nat
deriving DecidableEq, Repr

/-- Zero-padded two-digit field (strftime `%M`, `%d`, `%H`, `%S`). -/
def pad2 (n : Nat) : String := if n < 10 then "0" ++ toString n else toString n

/-- Zero-padded four-digit field (strftime `%Y`). -/
def pad4 (n : Nat) : String :=
  if n < 10 then "000" ++ toString n
  else if n < 100 then "00" ++ toString n
  else if n < 1000 then "0" ++ toString n
  else toString n

/-- The timestamp part of `mk_slug`:
`datetime.now().strftime("%Y-%M-%d_%H-%M-%S-")`.  Note the source's format
string writes `%M` (minute) in the month position. -/
def mk_slug_stamp (t : DateTime) : String :=
  pad4 t.year ++ "-" ++ pad2 t.minute ++ "-" ++ pad2 t.day ++ "_" ++
    pad2 t.hour ++ "-" ++ pad2 t.minute ++ "-" ++ pad2 t.second ++ "-"

/-- `mk_slug`: slugify the timestamp plus the first 40 characters of the
comment; `slugify` is an external library, abstracted as `slugifyFn`. -/
def mk_slug (slugifyFn : String → String) (t : DateTime) (comment : String) :
    String :=
  slugifyFn (mk_slug_stamp t ++ comment.take 40)

/-- Chronological order on instants (year, month, day, hour, minute, second
lexicographically). -/
def chronoBefore (t1 t2 : DateTime) : Prop :=
  t1.year < t2.year ∨ (t1.year = t2.year ∧
    (t1.month < t2.month ∨ (t1.month = t2.month ∧
      (t1.day < t2.day ∨ (t1.day = t2.day ∧
        (t1.hour < t2.hour ∨ (t1.hour = t2.hour ∧
          (t1.minute < t2.minute ∨
            (t1.minute = t2.minute ∧ t1.second < t2.second)))))))))

instance (t1 t2 : DateTime) : Decidable (chronoBefore t1 t2) := by
  unfold chronoBefore; infer_instance

/-! ## Association-list and sorting lemmas -/

theorem dget_dinsert_self {β : Type} (l : List (String × β)) (k : String)
    (v : β) : dget (dinsert l k v) k = some v := by
  induction l with
  | nil => simp [dinsert, dget]
  | cons p rest ih =>
    by_cases h : k = p.1
    · simp [dinsert, dget, h]
    · simp [dinsert, dget, h, ih]

theorem dget_dinsert_ne {β : Type} (l : List (String × β)) {k k' : String}
    (v : β) (h : k ≠ k') : dget (dinsert l k' v) k = dget l k := by
  induction l with
  | nil => simp [dinsert, dget, h]
  | cons p rest ih =>
    by_cases h2 : k' = p.1
    · subst h2
      simp [dinsert, dget, h]
    · simp only [dinsert, if_neg h2]
      by_cases h3 : k = p.1 <;> simp [dget, h3, ih]

theorem dget_eq_none_iff {β : Type} (l : List (String × β)) (k : String) :
    dget l k = none ↔ k ∉ dkeys l := by
  induction l with
  | nil => simp [dget, dkeys]
  | cons p rest ih =>
    by_cases h : k = p.1
    · simp [dget, dkeys, h]
    · simp only [dget, if_neg h, dkeys, List.map_cons, List.mem_cons]
      simp only [dkeys] at ih
      rw [ih]
      simp [h]

theorem dget_isSome_iff {β : Type} (l : List (String × β)) (k : String) :
    (dget l k).isSome = true ↔ k ∈ dkeys l := by
  have h := dget_eq_none_iff l k
  cases hd : dget l k with
  | none =>
    rw [hd] at h
    simp [h.mp rfl]
  | some v =>
    rw [hd] at h
    simp only [Option.isSome_some, true_iff]
    by_contra hmem
    exact absurd (h.mpr hmem) (by simp)

theorem dget_append {β : Type} (l1 l2 : List (String × β)) (k : String) :
    dget (l1 ++ l2) k =
      match dget l1 k with
      | some v => some v
      | none => dget l2 k := by
  induction l1 with
  | nil => simp [dget]
  | cons p rest ih =>
    by_cases h : k = p.1 <;> simp [dget, h, ih]

theorem mem_dkeys_dinsert {β : Type} (l : List (String × β)) (k x : String)
    (v : β) : x ∈ dkeys (dinsert l k v) ↔ x = k ∨ x ∈ dkeys l := by
  induction l with
  | nil => simp [dinsert, dkeys]
  | cons p rest ih =>
    by_cases h : k = p.1
    · subst h; simp [dinsert, dkeys]
    · simp only [dinsert, if_neg h, dkeys, List.map_cons, List.mem_cons] at ih ⊢
      rw [ih]
      tauto

theorem dinsert_ne_nil {β : Type} (l : List (String × β)) (k : String)
    (v : β) : dinsert l k v ≠ [] := by
  cases l with
  | nil => simp [dinsert]
  | cons p rest =>
    by_cases h : k = p.1 <;> simp [dinsert, h]

theorem dget_mem {β : Type} {l : List (String × β)} {k : String} {v : β}
    (h : dget l k = some v) : (k, v) ∈ l := by
  induction l with
  | nil => simp [dget] at h
  | cons p rest ih =>
    by_cases h2 : k = p.1
    · simp [dget, h2] at h
      subst h2; rw [← h]; exact List.mem_cons_self _ _
    · simp [dget, h2] at h
      exact List.mem_cons_of_mem _ (ih h)

theorem dget_perm {β : Type} {l1 l2 : List (String × β)} (p : l1.Perm l2)
    (hd : (dkeys l1).Nodup) (k : String) : dget l1 k = dget l2 k := by
  induction p with
  | nil => rfl
  | cons a p ih =>
    by_cases h : k = a.1
    · simp [dget, h]
    · simp only [dget, if_neg h]
      exact ih (List.nodup_cons.mp hd).2
  | swap x y l =>
    have hne : y.1 ≠ x.1 := by
      intro hc
      exact (List.nodup_cons.mp hd).1 (hc ▸ List.mem_cons_self _ _)
    by_cases h1 : k = y.1 <;> by_cases h2 : k = x.1
    · exact absurd (h1.symm.trans h2) hne
    · simp [dget, h1, h2, hne]
    · simp [dget, h1, h2, Ne.symm hne]
    · simp [dget, h1, h2]
  | trans p1 p2 ih1 ih2 =>
    have hd2 : (dkeys _).Nodup := ((p1.map Prod.fst).nodup_iff).mp hd
    exact (ih1 hd).trans (ih2 hd2)

theorem sortKeys_sorted (l : List String) : (sortKeys l).Sorted strle :=
  List.sorted_insertionSort strle l

theorem sortKeys_perm (l : List String) : (sortKeys l).Perm l :=
  List.perm_insertionSort strle l

theorem sortKeys_eq_of_perm {l1 l2 : List String} (p : l1.Perm l2) :
    sortKeys l1 = sortKeys l2 :=
  List.eq_of_perm_of_sorted
    (((sortKeys_perm l1).trans p).trans (sortKeys_perm l2).symm)
    (sortKeys_sorted l1) (sortKeys_sorted l2)

theorem mem_sortKeys {l : List String} {x : String} :
    x ∈ sortKeys l ↔ x ∈ l :=
  (sortKeys_perm l).mem_iff

theorem sortKeys_nodup {l : List String} (h : l.Nodup) :
    (sortKeys l).Nodup :=
  (sortKeys_perm l).symm.nodup h

theorem sortKeys_dedup_congr {l1 l2 : List String}
    (h : ∀ x, x ∈ l1 ↔ x ∈ l2) : sortKeys l1.dedup = sortKeys l2.dedup := by
  refine sortKeys_eq_of_perm ?_
  refine (List.perm_ext_iff_of_nodup (List.nodup_dedup l1)
    (List.nodup_dedup l2)).mpr ?_
  intro a
  simp [List.mem_dedup, h a]

theorem dkeys_snap_to_shas (snap : Snap) :
    dkeys (snap_to_shas snap) = dkeys snap := by
  simp [snap_to_shas, dkeys]

theorem dget_snap_to_shas (snap : Snap) (k : String) :
    dget (snap_to_shas snap) k = (dget snap k).map TableInfo.sha := by
  induction snap with
  | nil => rfl
  | cons p rest ih =>
    by_cases h : k = p.1
    · simp [snap_to_shas, dget, h]
    · simpa [snap_to_shas, dget, h] using ih

/-! ## Field-preservation lemmas for the state operations -/

theorem index_step_seq (H : String → String) (slug : String) (mig : Mig)
    (acc : PugPugState × List (String × String)) (t : String) :
    ((index_step H slug mig acc t).1).seq = acc.1.seq := by
  simp only [index_step]
  split <;> rfl

theorem index_step_simple_starts (H : String → String) (slug : String)
    (mig : Mig) (acc : PugPugState × List (String × String)) (t : String) :
    ((index_step H slug mig acc t).1).simple_starts = acc.1.simple_starts := by
  simp only [index_step]
  split <;> rfl

theorem index_step_tables (H : String → String) (slug : String) (mig : Mig)
    (acc : PugPugState × List (String × String)) (t : String) :
    ((index_step H slug mig acc t).1).tables = acc.1.tables := by
  simp only [index_step]
  split <;> rfl

theorem index_foldl_seq (H : String → String) (slug : String) (mig : Mig) :
    ∀ (l : List String) (acc : PugPugState × List (String × String)),
      ((l.foldl (index_step H slug mig) acc).1).seq = acc.1.seq := by
  intro l
  induction l with
  | nil => intro acc; rfl
  | cons t rest ih =>
    intro acc
    rw [List.foldl_cons, ih, index_step_seq]

theorem index_foldl_simple_starts (H : String → String) (slug : String)
    (mig : Mig) :
    ∀ (l : List String) (acc : PugPugState × List (String × String)),
      ((l.foldl (index_step H slug mig) acc).1).simple_starts =
        acc.1.simple_starts := by
  intro l
  induction l with
  | nil => intro acc; rfl
  | cons t rest ih =>
    intro acc
    rw [List.foldl_cons, ih, index_step_simple_starts]

theorem index_foldl_tables (H : String → String) (slug : String) (mig : Mig) :
    ∀ (l : List String) (acc : PugPugState × List (String × String)),
      ((l.foldl (index_step H slug mig) acc).1).tables = acc.1.tables := by
  intro l
  induction l with
  | nil => intro acc; rfl
  | cons t rest ih =>
    intro acc
    rw [List.foldl_cons, ih, index_step_tables]

theorem index_migration_seq (H : String → String) (st : PugPugState)
    (slug : String) (mig : Mig) :
    ((index_migration H st slug mig).1).seq = st.seq := by
  simp only [index_migration]
  rw [index_foldl_seq]

theorem index_migration_simple_starts (H : String → String) (st : PugPugState)
    (slug : String) (mig : Mig) :
    ((index_migration H st slug mig).1).simple_starts =
      dinsert st.simple_starts (snap_sha H mig.start_shas) slug := by
  simp only [index_migration]
  rw [index_foldl_simple_starts]

theorem index_migration_tables (H : String → String) (st : PugPugState)
    (slug : String) (mig : Mig) :
    ((index_migration H st slug mig).1).tables = st.tables := by
  simp only [index_migration]
  rw [index_foldl_tables]

theorem update_table_snaps_seq (snap : Snap) (st : PugPugState) :
    (update_table_snaps snap st).seq = st.seq := by
  induction snap generalizing st with
  | nil => rfl
  | cons p rest ih =>
    simp only [update_table_snaps, List.foldl_cons] at ih ⊢
    rw [ih]

theorem update_table_snaps_simple_starts (snap : Snap) (st : PugPugState) :
    (update_table_snaps snap st).simple_starts = st.simple_starts := by
  induction snap generalizing st with
  | nil => rfl
  | cons p rest ih =>
    simp only [update_table_snaps, List.foldl_cons] at ih ⊢
    rw [ih]

theorem add_migration_seq (H : String → String) (st : PugPugState)
    (slug comment sql : String) (start_snap end_snap : Snap) :
    (add_migration H st slug comment sql start_snap end_snap).seq =
      dinsert st.seq slug
        { comment := comment, start_shas := snap_to_shas start_snap,
          end_shas := snap_to_shas end_snap, sql_sha := H sql } := by
  simp only [add_migration]
  rw [update_table_snaps_seq, index_migration_seq]

/-! ## Claims C8, C10, C4, C5 -/

/-- C8: the joint aggregate hash is deterministic and order-independent —
any two snapshot hash maps holding exactly the same set of (table, hash)
pairs (in any order) produce the identical `snap_sha` value, because entries
are sorted by table name before hashing.  Determinism is immediate
(`snap_sha` is a function); order-independence is permutation-invariance. -/
theorem C8_joint_hash_order_independent (H : String → String) {s1 s2 : Shas}
    (p : s1.Perm s2) (hd : (dkeys s1).Nodup) :
    snap_sha H s1 = snap_sha H s2 := by
  unfold snap_sha
  rw [show sortKeys (dkeys s1) = sortKeys (dkeys s2) from
    sortKeys_eq_of_perm (p.map Prod.fst)]
  have hfun : (fun k => k ++ "=" ++ (dget s1 k).getD "") =
      (fun k => k ++ "=" ++ (dget s2 k).getD "") := by
    funext k
    rw [dget_perm p hd k]
  rw [hfun]

/-- Witness for C8 at a concrete pair of reordered snapshots. -/
theorem C8_witness :
    snap_sha (fun s => s) [("b", "2"), ("a", "1")] =
      snap_sha (fun s => s) [("a", "1"), ("b", "2")] :=
  C8_joint_hash_order_independent (fun s => s)
    (List.Perm.swap ("a", "1") ("b", "2") []) (by decide)

/-- C10: `is_up_to_date` takes `max` over the sequence's keys, so on a state
with an empty migration sequence it fails (`none`, the model of the
`ValueError` raised by `max([])`) instead of returning `false`; every
successful check presupposes at least one recorded migration. -/
theorem C10_is_up_to_date_needs_migration (H : String → String) (st : PugPugState)
    (db_snap : Snap) :
    (st.seq = [] → is_up_to_date H st db_snap = none) ∧
    (∀ b, is_up_to_date H st db_snap = some b → st.seq ≠ []) := by
  constructor
  · intro h
    simp [is_up_to_date, h, dkeys, maxKey]
  · intro b hb hnil
    have hnone : is_up_to_date H st db_snap = none := by
      simp [is_up_to_date, hnil, dkeys, maxKey]
    rw [hnone] at hb
    cases hb

/-- Witness for C10 on the empty state. -/
theorem C10_witness : is_up_to_date (fun s => s) empty_state [] = none :=
  (C10_is_up_to_date_needs_migration (fun s => s) empty_state []).1 rfl

/-- C4 counterexample: the record produced by the engine for `init` (an
`add_migration` whose start snapshot is the empty dict, exactly what
`PugPug.init` passes) has `start_shas = {}` but a non-empty `end_shas`, so
the claimed invariant "key set of start_hashes = key set of end_hashes" is
false. -/
theorem C4_counterexample :
    (dget (add_migration (fun s => s) empty_state "m1" "Initial Leap." "q"
        [] [("a", { sql := "t", sha := "h1" })]).seq "m1").map
      (fun m => (dkeys m.start_shas, dkeys m.end_shas)) =
        some ([], ["a"]) ∧ ([] : List String) ≠ ["a"] := by
  constructor
  · rfl
  · decide

/-- C4 (amended): a `MigrationRecord` produced by `add_migration` carries
`start_shas`/`end_shas` whose key sets are exactly the tables of the start
and end snapshots respectively; the engine does not force the two key sets
to coincide (for `init`'s empty start snapshot they differ), and consumers
default missing keys to `EMPTYSHA`. -/
theorem C4_record_key_sets (H : String → String) (st : PugPugState)
    (slug comment sql : String) (start_snap end_snap : Snap) :
    dget (add_migration H st slug comment sql start_snap end_snap).seq slug =
      some { comment := comment, start_shas := snap_to_shas start_snap,
             end_shas := snap_to_shas end_snap, sql_sha := H sql } ∧
    dkeys (snap_to_shas start_snap) = dkeys start_snap ∧
    dkeys (snap_to_shas end_snap) = dkeys end_snap := by
  refine ⟨?_, dkeys_snap_to_shas _, dkeys_snap_to_shas _⟩
  rw [add_migration_seq]
  exact dget_dinsert_self _ _ _

/-- C5: the claim says slugs sort lexicographically in creation order.  The
source formats the timestamp with `"%Y-%M-%d_%H-%M-%S-"`: `%M` (minute)
stands where the month belongs.  At 2024-01-15 10:59:59 versus
2024-02-01 00:00:00 the generated stamps are "2024-59-15_10-59-59-" and
"2024-00-01_00-00-00-": the chronologically later instant gets the
lexicographically smaller stamp. -/
theorem C5_mk_slug_stamp_not_monotone :
    chronoBefore { year := 2024, month := 1, day := 15, hour := 10,
                   minute := 59, second := 59 }
                 { year := 2024, month := 2, day := 1, hour := 0,
                   minute := 0, second := 0 } ∧
    mk_slug_stamp { year := 2024, month := 1, day := 15, hour := 10,
                    minute := 59, second := 59 } = "2024-59-15_10-59-59-" ∧
    mk_slug_stamp { year := 2024, month := 2, day := 1, hour := 0,
                    minute := 0, second := 0 } = "2024-00-01_00-00-00-" ∧
    strLt (mk_slug_stamp { year := 2024, month := 2, day := 1, hour := 0,
                           minute := 0, second := 0 })
          (mk_slug_stamp { year := 2024, month := 1, day := 15, hour := 10,
                           minute := 59, second := 59 }) = true := by
  refine ⟨by decide, rfl, rfl, by decide⟩

/-! ## Claim C1: simple resolution -/

/-- After indexing a list of migrations in order, a `simple_starts` lookup
returns the slug of the last indexed migration whose joint start hash is the
key, and falls back to the initial state's entry otherwise. -/
theorem load_foldl_simple_starts (H : String → String) :
    ∀ (migs : List (String × Mig)) (st : PugPugState) (h : String),
      dget ((migs.foldl (fun st p => (index_migration H st p.1 p.2).1)
          st).simple_starts) h =
        match migs.reverse.find?
            (fun p => snap_sha H p.2.start_shas == h) with
        | some p => some p.1
        | none => dget st.simple_starts h := by
  intro migs
  induction migs with
  | nil => intro st h; rfl
  | cons q rest ih =>
    intro st h
    rw [List.foldl_cons, ih, List.reverse_cons, List.find?_append]
    cases hf : rest.reverse.find? (fun p => snap_sha H p.2.start_shas == h) with
    | some p => simp [Option.or]
    | none =>
      simp only [Option.or]
      rw [index_migration_simple_starts]
      by_cases he : snap_sha H q.2.start_shas = h
      · simp only [List.find?, he, beq_self_eq_true]
        rw [← he]
        exact dget_dinsert_self _ _ _
      · have hne : (snap_sha H q.2.start_shas == h) = false := by
          simp [he]
        simp only [List.find?, hne]
        exact dget_dinsert_ne _ _ (fun hc => he hc.symm)

/-- C1: on a state loaded from a migration sequence, simple resolution
returns a slug only when that slug is recorded with a joint start hash equal
to the live snapshot's joint hash, and returns `none` exactly when no
recorded migration's joint start hash matches the live joint hash. -/
theorem C1_find_next_simple (H : String → String)
    (tableData : String → List (String × String))
    (migs : List (String × Mig)) (db_snap : Snap) :
    (∀ slug,
      find_next_migration_simple H (load_state H tableData migs) db_snap =
          some slug →
        ∃ mig, (slug, mig) ∈ migs ∧
          snap_sha H mig.start_shas = snap_sha H (snap_to_shas db_snap)) ∧
    (find_next_migration_simple H (load_state H tableData migs) db_snap =
        none ↔
      ∀ p ∈ migs,
        snap_sha H p.2.start_shas ≠ snap_sha H (snap_to_shas db_snap)) := by
  have hss : (load_state H tableData migs).simple_starts =
      ((migs.foldl (fun st p => (index_migration H st p.1 p.2).1)
        { empty_state with seq := migs }).simple_starts) := rfl
  have key := load_foldl_simple_starts H migs { empty_state with seq := migs }
    (snap_sha H (snap_to_shas db_snap))
  constructor
  · intro slug hsome
    rw [find_next_migration_simple, hss, key] at hsome
    cases hf : migs.reverse.find?
        (fun p => snap_sha H p.2.start_shas ==
          snap_sha H (snap_to_shas db_snap)) with
    | none => rw [hf] at hsome; cases hsome
    | some p =>
      rw [hf] at hsome
      have hp : p.1 = slug := by
        injection hsome
      have hmem : p ∈ migs := List.mem_reverse.mp (List.mem_of_find?_eq_some hf)
      have hpred := List.find?_some hf
      refine ⟨p.2, ?_, by simpa using hpred⟩
      rw [← hp]
      exact hmem
  · rw [find_next_migration_simple, hss, key]
    cases hf : migs.reverse.find?
        (fun p => snap_sha H p.2.start_shas ==
          snap_sha H (snap_to_shas db_snap)) with
    | none =>
      simp only [dget]
      constructor
      · intro _ p hp
        have := List.find?_eq_none.mp hf p (List.mem_reverse.mpr hp)
        simpa using this
      · intro _; trivial
    | some p =>
      simp only []
      constructor
      · intro hc; cases hc
      · intro hall
        have hpred := List.find?_some hf
        have hmem : p ∈ migs :=
          List.mem_reverse.mp (List.mem_of_find?_eq_some hf)
        exact absurd (by simpa using hpred) (hall p hmem)

/-- Witness for C1: a one-migration sequence whose recorded joint start hash
matches the live snapshot, where simple resolution finds that slug. -/
theorem C1_witness :
    ∃ mig, ("m1", mig) ∈
        [("m1", ({ comment := "c", start_shas := [("a", "h0")],
                   end_shas := [("a", "h1")], sql_sha := "q" } : Mig))] ∧
      snap_sha (fun s => s) mig.start_shas =
        snap_sha (fun s => s)
          (snap_to_shas [("a", { sql := "t", sha := "h0" })]) :=
  (C1_find_next_simple (fun s => s) (fun _ => [])
    [("m1", { comment := "c", start_shas := [("a", "h0")],
              end_shas := [("a", "h1")], sql_sha := "q" })]
    [("a", { sql := "t", sha := "h0" })]).1 "m1" (by decide)

/-! ## Claim C2: the validator -/

/-- A table is in a migration's change-set when its start hash differs from
its end hash (missing keys default to `EMPTYSHA`, as in the source). -/
def table_changed (H : String → String) (mig : Mig) (name : String) : Prop :=
  (dget mig.start_shas name).getD (EMPTYSHA H) ≠
    (dget mig.end_shas name).getD (EMPTYSHA H)

instance (H : String → String) (mig : Mig) (name : String) :
    Decidable (table_changed H mig name) := by
  unfold table_changed; infer_instance

/-- The live hash the validator reads for a table (missing tables default to
`EMPTYSHA`). -/
def live_sha (H : String → String) (db_snap : Snap) (name : String) : String :=
  (dget (snap_to_shas db_snap) name).getD (EMPTYSHA H)

/-- The hash a table must equal for the check to pass: the start hash in pre
mode, the end hash in post mode. -/
def goal_sha (H : String → String) (mig : Mig) (postrun : Bool)
    (name : String) : String :=
  if postrun then (dget mig.end_shas name).getD (EMPTYSHA H)
  else (dget mig.start_shas name).getD (EMPTYSHA H)

/-- The filter condition inside `check_validity` marks a table bad exactly
when it is changed and its live hash differs from the mode's reference
hash. -/
theorem cv_cond_iff (s e live : String) (postrun : Bool) :
    ((if s = e then false
      else if s ≠ live ∧ postrun = false then true
      else postrun = true ∧ e ≠ live) = true) ↔
      (s ≠ e ∧ live ≠ (if postrun then e else s)) := by
  by_cases h1 : s = e <;> cases postrun <;> by_cases h2 : s = live <;>
    by_cases h3 : e = live <;> simp_all <;> tauto

/-- A changed table always lies in the key union walked by the validator. -/
theorem changed_mem_names (H : String → String) (mig : Mig) (name : String)
    (h : table_changed H mig name) :
    name ∈ sortKeys ((dkeys mig.start_shas ++ dkeys mig.end_shas).dedup) := by
  rw [mem_sortKeys, List.mem_dedup, List.mem_append]
  by_contra hc
  push_neg at hc
  have h1 : dget mig.start_shas name = none := (dget_eq_none_iff _ _).mpr hc.1
  have h2 : dget mig.end_shas name = none := (dget_eq_none_iff _ _).mpr hc.2
  simp [table_changed, h1, h2] at h

/-- The validator's filter condition, rewritten as a decision of the
"changed and mismatching" proposition. -/
theorem cv_cond_eq (s e live : String) (postrun : Bool) :
    ((if s = e then false
      else if s ≠ live ∧ postrun = false then true
      else postrun = true ∧ e ≠ live) : Bool) =
      decide (s ≠ e ∧ live ≠ (if postrun then e else s)) := by
  by_cases h : s ≠ e ∧ live ≠ (if postrun then e else s)
  · rw [(cv_cond_iff s e live postrun).mpr h]
    exact (decide_eq_true h).symm
  · rw [decide_eq_false h]
    cases hv : ((if s = e then false
        else if s ≠ live ∧ postrun = false then true
        else postrun = true ∧ e ≠ live) : Bool)
    · rfl
    · exact absurd ((cv_cond_iff s e live postrun).mp hv) h

/-- `check_validity_mig` in terms of the clean change-set predicate. -/
theorem check_validity_mig_eq (H : String → String) (mig : Mig)
    (db_snap : Snap) (postrun : Bool) :
    check_validity_mig H mig db_snap postrun =
      (if ((sortKeys ((dkeys mig.start_shas ++
            dkeys mig.end_shas).dedup)).filter
            (fun name => decide (table_changed H mig name ∧
              live_sha H db_snap name ≠ goal_sha H mig postrun name))).isEmpty
       then none
       else some ((sortKeys ((dkeys mig.start_shas ++
            dkeys mig.end_shas).dedup)).filter
            (fun name => decide (table_changed H mig name ∧
              live_sha H db_snap name ≠ goal_sha H mig postrun name)))) := by
  have hdef : check_validity_mig H mig db_snap postrun =
      (if ((sortKeys ((dkeys mig.start_shas ++
            dkeys mig.end_shas).dedup)).filter
            (fun name =>
              let s := (dget mig.start_shas name).getD (EMPTYSHA H)
              let e := (dget mig.end_shas name).getD (EMPTYSHA H)
              let live := (dget (snap_to_shas db_snap) name).getD (EMPTYSHA H)
              ((if s = e then false
                else if s ≠ live ∧ postrun = false then true
                else postrun = true ∧ e ≠ live) : Bool))).isEmpty
       then none
       else some ((sortKeys ((dkeys mig.start_shas ++
            dkeys mig.end_shas).dedup)).filter
            (fun name =>
              let s := (dget mig.start_shas name).getD (EMPTYSHA H)
              let e := (dget mig.end_shas name).getD (EMPTYSHA H)
              let live := (dget (snap_to_shas db_snap) name).getD (EMPTYSHA H)
              ((if s = e then false
                else if s ≠ live ∧ postrun = false then true
                else postrun = true ∧ e ≠ live) : Bool)))) := rfl
  rw [hdef]
  have hfun : (fun name =>
      let s := (dget mig.start_shas name).getD (EMPTYSHA H)
      let e := (dget mig.end_shas name).getD (EMPTYSHA H)
      let live := (dget (snap_to_shas db_snap) name).getD (EMPTYSHA H)
      ((if s = e then false
        else if s ≠ live ∧ postrun = false then true
        else postrun = true ∧ e ≠ live) : Bool)) =
      (fun name => decide (table_changed H mig name ∧
        live_sha H db_snap name ≠ goal_sha H mig postrun name)) := by
    funext name
    exact cv_cond_eq ((dget mig.start_shas name).getD (EMPTYSHA H))
      ((dget mig.end_shas name).getD (EMPTYSHA H))
      ((dget (snap_to_shas db_snap) name).getD (EMPTYSHA H)) postrun
  rw [hfun]

/-- C2: for a recorded slug, `check_validity` reports no violations iff every
table in the change-set has its live hash equal to the migration's start
hash (pre mode) / end hash (post mode); when it reports violations, the
returned list holds exactly the mismatching changed tables. -/
theorem C2_check_validity_characterizes (H : String → String)
    (st : PugPugState) (slug : String) (mig : Mig) (db_snap : Snap)
    (postrun : Bool) (hslug : dget st.seq slug = some mig) :
    check_validity H st slug db_snap postrun =
      some (check_validity_mig H mig db_snap postrun) ∧
    (check_validity_mig H mig db_snap postrun = none ↔
      ∀ name, table_changed H mig name →
        live_sha H db_snap name = goal_sha H mig postrun name) ∧
    (∀ l name, check_validity_mig H mig db_snap postrun = some l →
      (name ∈ l ↔ table_changed H mig name ∧
        live_sha H db_snap name ≠ goal_sha H mig postrun name)) := by
  have heq := check_validity_mig_eq H mig db_snap postrun
  refine ⟨by simp [check_validity, hslug], ?_, ?_⟩
  · rw [heq]
    split
    next hemp =>
      have hb : (sortKeys ((dkeys mig.start_shas ++
          dkeys mig.end_shas).dedup)).filter
            (fun name => decide (table_changed H mig name ∧
              live_sha H db_snap name ≠ goal_sha H mig postrun name)) = [] :=
        List.isEmpty_iff.mp hemp
      constructor
      · intro _ name hch
        by_contra hbad
        have hmem : name ∈ (sortKeys ((dkeys mig.start_shas ++
            dkeys mig.end_shas).dedup)).filter
              (fun name => decide (table_changed H mig name ∧
                live_sha H db_snap name ≠ goal_sha H mig postrun name)) :=
          List.mem_filter.mpr ⟨changed_mem_names H mig name hch,
            decide_eq_true ⟨hch, hbad⟩⟩
        rw [hb] at hmem
        cases hmem
      · intro _; rfl
    next hemp =>
      have hb : (sortKeys ((dkeys mig.start_shas ++
          dkeys mig.end_shas).dedup)).filter
            (fun name => decide (table_changed H mig name ∧
              live_sha H db_snap name ≠ goal_sha H mig postrun name)) ≠ [] := by
        intro hc
        exact hemp (by rw [hc]; rfl)
      constructor
      · intro hc; cases hc
      · intro hall
        rcases List.exists_mem_of_ne_nil _ hb with ⟨x, hx⟩
        rcases List.mem_filter.mp hx with ⟨hxmem, hxp⟩
        rw [decide_eq_true_eq] at hxp
        exact absurd (hall x hxp.1) hxp.2
  · intro l name hsome
    rw [heq] at hsome
    split at hsome
    next => cases hsome
    next =>
      have hl := Option.some_inj.mp hsome
      subst hl
      simp only [List.mem_filter, decide_eq_true_eq]
      constructor
      · intro hm; exact hm.2
      · intro hch; exact ⟨changed_mem_names H mig name hch.1, hch⟩

/-- Witness for C2 at a concrete state: one recorded migration changing
table "a" from "h0" to "h1", checked in pre mode against a snapshot at
"h0". -/
theorem C2_witness :
    check_validity (fun s => s)
        { seq := [("m1", { comment := "c", start_shas := [("a", "h0")],
                           end_shas := [("a", "h1")], sql_sha := "q" })],
          table_transforms := [], simple_starts := [], seen := [],
          tables := [] } "m1" [("a", { sql := "t", sha := "h0" })] false =
      some (check_validity_mig (fun s => s)
        { comment := "c", start_shas := [("a", "h0")],
          end_shas := [("a", "h1")], sql_sha := "q" }
        [("a", { sql := "t", sha := "h0" })] false) :=
  (C2_check_validity_characterizes (fun s => s)
    { seq := [("m1", { comment := "c", start_shas := [("a", "h0")],
                       end_shas := [("a", "h1")], sql_sha := "q" })],
      table_transforms := [], simple_starts := [], seen := [],
      tables := [] } "m1"
    { comment := "c", start_shas := [("a", "h0")],
      end_shas := [("a", "h1")], sql_sha := "q" }
    [("a", { sql := "t", sha := "h0" })] false (by decide)).1

/-! ## Claim C9: the per-table history store is append-only -/

/-- One `update_table_snaps` step never changes an entry already present. -/
theorem dget2_extend (tabs : List (String × List (String × String)))
    (name sha sql : String) (t h txt : String)
    (hold : dget2 tabs t h = some txt) :
    dget2 (dinsert tabs name
      (if (dget ((dget tabs name).getD []) sha).isSome then
        (dget tabs name).getD []
       else dinsert ((dget tabs name).getD []) sha sql)) t h = some txt := by
  unfold dget2 at hold ⊢
  by_cases ht : t = name
  · subst ht
    rw [dget_dinsert_self]
    cases hcur : dget tabs t with
    | none =>
      rw [hcur] at hold
      simp [dget] at hold
    | some cur =>
      rw [hcur] at hold
      simp only [hcur, Option.getD_some] at hold ⊢
      by_cases hp : (dget cur sha).isSome = true
      · simpa [hp] using hold
      · simp only [hp, if_false, Bool.false_eq_true]
        by_cases hh : h = sha
        · subst hh
          rw [hold] at hp
          simp at hp
        · rw [dget_dinsert_ne _ _ hh]
          exact hold
  · rw [dget_dinsert_ne _ _ ht]
    exact hold

/-- One `update_table_snaps` step only ever adds the snapshot entry's own
(table, sha, sql) triple, and only when that hash was absent. -/
theorem dget2_extend_cases (tabs : List (String × List (String × String)))
    (name sha sql : String) (t h txt : String)
    (hnew : dget2 (dinsert tabs name
      (if (dget ((dget tabs name).getD []) sha).isSome then
        (dget tabs name).getD []
       else dinsert ((dget tabs name).getD []) sha sql)) t h = some txt) :
    dget2 tabs t h = some txt ∨
      (dget2 tabs t h = none ∧ t = name ∧ h = sha ∧ txt = sql) := by
  unfold dget2 at hnew ⊢
  by_cases ht : t = name
  · subst ht
    rw [dget_dinsert_self] at hnew
    simp only [Option.getD_some] at hnew
    by_cases hp : (dget ((dget tabs t).getD []) sha).isSome = true
    · rw [if_pos hp] at hnew
      exact Or.inl hnew
    · rw [if_neg hp] at hnew
      by_cases hh : h = sha
      · subst hh
        rw [dget_dinsert_self] at hnew
        have hnone : dget ((dget tabs t).getD []) h = none := by
          cases hx : dget ((dget tabs t).getD []) h
          · rfl
          · rw [hx] at hp; simp at hp
        exact Or.inr ⟨hnone, rfl, rfl, (Option.some_inj.mp hnew).symm⟩
      · rw [dget_dinsert_ne _ _ hh] at hnew
        exact Or.inl hnew
  · rw [dget_dinsert_ne _ _ ht] at hnew
    exact Or.inl hnew

/-- `update_table_snaps` preserves every existing history entry. -/
theorem update_table_snaps_preserves (snap : Snap) :
    ∀ (st : PugPugState) (t h txt : String),
      dget2 st.tables t h = some txt →
      dget2 (update_table_snaps snap st).tables t h = some txt := by
  induction snap with
  | nil => intro st t h txt hold; exact hold
  | cons p rest ih =>
    intro st t h txt hold
    exact ih _ t h txt (dget2_extend st.tables p.1 p.2.sha p.2.sql t h txt hold)

/-- Every history entry visible after `update_table_snaps` was either there
before or is a fresh (previously absent) entry copied from the snapshot. -/
theorem update_table_snaps_new_entries (snap : Snap) :
    ∀ (st : PugPugState) (t h txt : String),
      dget2 (update_table_snaps snap st).tables t h = some txt →
      dget2 st.tables t h = some txt ∨ (dget2 st.tables t h = none ∧
        ∃ info, (t, info) ∈ snap ∧ info.sha = h ∧ info.sql = txt) := by
  induction snap with
  | nil => intro st t h txt hafter; exact Or.inl hafter
  | cons p rest ih =>
    intro st t h txt hafter
    rcases ih _ t h txt hafter with hmid | ⟨hmidnone, info, hinfo, hsha, hsql⟩
    · rcases dget2_extend_cases st.tables p.1 p.2.sha p.2.sql t h txt hmid with
        hl | ⟨hnone, ht, hh, htxt⟩
      · exact Or.inl hl
      · exact Or.inr ⟨hnone, p.2,
          by rw [ht]; exact List.mem_cons_self _ _, hh.symm, htxt.symm⟩
    · cases hbefore : dget2 st.tables t h with
      | some txt0 =>
        have := dget2_extend st.tables p.1 p.2.sha p.2.sql t h txt0 hbefore
        rw [this] at hmidnone
        cases hmidnone
      | none =>
        exact Or.inr ⟨rfl, info, List.mem_cons_of_mem _ hinfo, hsha, hsql⟩

/-- `add_migration` also preserves every existing history entry (its only
history mutation is `update_table_snaps` on the end snapshot). -/
theorem add_migration_preserves_history (H : String → String)
    (st : PugPugState) (slug comment sql : String)
    (start_snap end_snap : Snap) (t h txt : String)
    (hold : dget2 st.tables t h = some txt) :
    dget2 (add_migration H st slug comment sql start_snap end_snap).tables
      t h = some txt := by
  unfold add_migration
  apply update_table_snaps_preserves
  rw [index_migration_tables]
  exact hold

/-- C9: the per-table history store is append-only: `update_table_snaps`
(and therefore `add_migration`) leaves every already-present (table, hash)
entry's text unchanged, and any new entry is a previously absent hash copied
verbatim from the snapshot. -/
theorem C9_history_append_only (H : String → String) (snap : Snap)
    (st : PugPugState) (slug comment sql : String)
    (start_snap end_snap : Snap) :
    (∀ t h txt, dget2 st.tables t h = some txt →
      dget2 (update_table_snaps snap st).tables t h = some txt) ∧
    (∀ t h txt, dget2 (update_table_snaps snap st).tables t h = some txt →
      dget2 st.tables t h = some txt ∨ (dget2 st.tables t h = none ∧
        ∃ info, (t, info) ∈ snap ∧ info.sha = h ∧ info.sql = txt)) ∧
    (∀ t h txt, dget2 st.tables t h = some txt →
      dget2 (add_migration H st slug comment sql start_snap end_snap).tables
        t h = some txt) :=
  ⟨fun t h txt => update_table_snaps_preserves snap st t h txt,
   fun t h txt => update_table_snaps_new_entries snap st t h txt,
   fun t h txt => add_migration_preserves_history H st slug comment sql
     start_snap end_snap t h txt⟩

/-- Witness for C9: an existing entry survives an update with a new hash for
the same table. -/
theorem C9_witness :
    dget2 (update_table_snaps [("a", { sql := "T2", sha := "h2" })]
      { seq := [], table_transforms := [], simple_starts := [], seen := [],
        tables := [("a", [("h1", "T1")])] }).tables "a" "h1" = some "T1" :=
  (C9_history_append_only (fun s => s) [("a", { sql := "T2", sha := "h2" })]
    { seq := [], table_transforms := [], simple_starts := [], seen := [],
      tables := [("a", [("h1", "T1")])] } "s" "c" "q" [] []).1
    "a" "h1" "T1" (by decide)

/-! ## Claim C6: conflicting transforms -/

theorem dget_ensure (tabs : List (String × List (String × String)))
    (t : String) :
    (dget (if (dget tabs t).isSome then tabs else dinsert tabs t []) t).getD
        [] = (dget tabs t).getD [] := by
  by_cases hp : (dget tabs t).isSome = true
  · rw [if_pos hp]
  · rw [if_neg hp, dget_dinsert_self]
    cases hx : dget tabs t
    · rfl
    · rw [hx] at hp; simp at hp

theorem dget_ensure_other (tabs : List (String × List (String × String)))
    {t t' : String} (h : t ≠ t') :
    dget (if (dget tabs t').isSome then tabs else dinsert tabs t' []) t =
      dget tabs t := by
  by_cases hp : (dget tabs t').isSome = true
  · rw [if_pos hp]
  · rw [if_neg hp, dget_dinsert_ne _ _ h]

theorem dget2_ensure (tabs : List (String × List (String × String)))
    (t s : String) :
    dget2 (if (dget tabs t).isSome then tabs else dinsert tabs t []) t s =
      dget2 tabs t s := by
  unfold dget2
  rw [dget_ensure]

/-- An `index_migration` step for one table leaves every other table's
transform entry unchanged. -/
theorem index_step_tt_other (H : String → String) (slug : String) (mig : Mig)
    (acc : PugPugState × List (String × String)) (t' : String) {t : String}
    (h : t ≠ t') :
    dget ((index_step H slug mig acc t').1).table_transforms t =
      dget acc.1.table_transforms t := by
  simp only [index_step]
  split
  · exact dget_ensure_other _ h
  · rw [dget_dinsert_ne _ _ h]
    exact dget_ensure_other _ h

/-- The effect of an `index_migration` step on its own table's transform
entry: keep it for an unchanged table, else overwrite the start hash's slot
with the new slug. -/
theorem index_step_tt_self (H : String → String) (slug : String) (mig : Mig)
    (acc : PugPugState × List (String × String)) (t : String) :
    dget ((index_step H slug mig acc t).1).table_transforms t =
      some (if (dget mig.start_shas t).getD (EMPTYSHA H) =
               (dget mig.end_shas t).getD (EMPTYSHA H)
            then (dget acc.1.table_transforms t).getD []
            else dinsert ((dget acc.1.table_transforms t).getD [])
              ((dget mig.start_shas t).getD (EMPTYSHA H)) slug) := by
  simp only [index_step]
  by_cases hse : (dget mig.start_shas t).getD (EMPTYSHA H) =
      (dget mig.end_shas t).getD (EMPTYSHA H)
  · rw [if_pos hse, if_pos hse]
    by_cases hp : (dget acc.1.table_transforms t).isSome = true
    · rw [if_pos hp]
      rcases Option.isSome_iff_exists.mp hp with ⟨cur, hcur⟩
      simp [hcur]
    · rw [if_neg hp, dget_dinsert_self]
      cases hx : dget acc.1.table_transforms t
      · rfl
      · rw [hx] at hp; simp at hp
  · rw [if_neg hse, if_neg hse, dget_dinsert_self, dget_ensure]

/-- The warnings appended by one `index_migration` step. -/
theorem index_step_warns (H : String → String) (slug : String) (mig : Mig)
    (acc : PugPugState × List (String × String)) (t : String) :
    (index_step H slug mig acc t).2 =
      if (dget mig.start_shas t).getD (EMPTYSHA H) =
         (dget mig.end_shas t).getD (EMPTYSHA H)
      then acc.2
      else if (dget2 acc.1.table_transforms t
          ((dget mig.start_shas t).getD (EMPTYSHA H))).isSome
        then acc.2 ++ [(t, (dget mig.start_shas t).getD (EMPTYSHA H))]
        else acc.2 := by
  simp only [index_step]
  by_cases hse : (dget mig.start_shas t).getD (EMPTYSHA H) =
      (dget mig.end_shas t).getD (EMPTYSHA H)
  · rw [if_pos hse, if_pos hse]
  · rw [if_neg hse, if_neg hse, dget2_ensure]

theorem index_step_warns_mono (H : String → String) (slug : String)
    (mig : Mig) (acc : PugPugState × List (String × String)) (t : String)
    (w : String × String) (hw : w ∈ acc.2) :
    w ∈ (index_step H slug mig acc t).2 := by
  rw [index_step_warns]
  split
  · exact hw
  · split
    · exact List.mem_append_left _ hw
    · exact hw

theorem index_foldl_warns_mono (H : String → String) (slug : String)
    (mig : Mig) :
    ∀ (l : List String) (acc : PugPugState × List (String × String))
      (w : String × String), w ∈ acc.2 →
      w ∈ (l.foldl (index_step H slug mig) acc).2 := by
  intro l
  induction l with
  | nil => intro acc w hw; exact hw
  | cons t rest ih =>
    intro acc w hw
    rw [List.foldl_cons]
    exact ih _ w (index_step_warns_mono H slug mig acc t w hw)

theorem index_foldl_tt_other (H : String → String) (slug : String)
    (mig : Mig) :
    ∀ (l : List String) (acc : PugPugState × List (String × String))
      (t : String), t ∉ l →
      dget ((l.foldl (index_step H slug mig) acc).1).table_transforms t =
        dget acc.1.table_transforms t := by
  intro l
  induction l with
  | nil => intro acc t _; rfl
  | cons t' rest ih =>
    intro acc t ht
    rw [List.foldl_cons,
      ih _ t (fun hc => ht (List.mem_cons_of_mem _ hc)),
      index_step_tt_other H slug mig acc t'
        (fun hc => ht (by rw [hc]; exact List.mem_cons_self _ _))]

theorem index_foldl_tt_mem (H : String → String) (slug : String) (mig : Mig) :
    ∀ (l : List String) (acc : PugPugState × List (String × String))
      (t : String), l.Nodup → t ∈ l →
      dget ((l.foldl (index_step H slug mig) acc).1).table_transforms t =
        some (if (dget mig.start_shas t).getD (EMPTYSHA H) =
                 (dget mig.end_shas t).getD (EMPTYSHA H)
              then (dget acc.1.table_transforms t).getD []
              else dinsert ((dget acc.1.table_transforms t).getD [])
                ((dget mig.start_shas t).getD (EMPTYSHA H)) slug) := by
  intro l
  induction l with
  | nil => intro acc t _ ht; cases ht
  | cons t' rest ih =>
    intro acc t hnd ht
    rw [List.foldl_cons]
    rcases List.mem_cons.mp ht with heq | hmem
    · subst heq
      rw [index_foldl_tt_other H slug mig rest _ t
        (List.nodup_cons.mp hnd).1]
      exact index_step_tt_self H slug mig acc t
    · have hne : t ≠ t' := by
        intro hc
        subst hc
        exact (List.nodup_cons.mp hnd).1 hmem
      rw [ih _ t (List.nodup_cons.mp hnd).2 hmem,
        index_step_tt_other H slug mig acc t' hne]

theorem index_foldl_warns_mem (H : String → String) (slug : String)
    (mig : Mig) :
    ∀ (l : List String) (acc : PugPugState × List (String × String))
      (t : String), t ∈ l →
      (dget mig.start_shas t).getD (EMPTYSHA H) ≠
        (dget mig.end_shas t).getD (EMPTYSHA H) →
      (dget2 acc.1.table_transforms t
        ((dget mig.start_shas t).getD (EMPTYSHA H))).isSome = true →
      (t, (dget mig.start_shas t).getD (EMPTYSHA H)) ∈
        (l.foldl (index_step H slug mig) acc).2 := by
  intro l
  induction l with
  | nil => intro acc t ht; cases ht
  | cons t' rest ih =>
    intro acc t ht hch hprev
    rw [List.foldl_cons]
    rcases List.mem_cons.mp ht with heq | hmem
    · subst heq
      apply index_foldl_warns_mono
      rw [index_step_warns, if_neg hch, if_pos hprev]
      exact List.mem_append_right _ (List.mem_singleton.mpr rfl)
    · by_cases hne : t = t'
      · subst hne
        apply index_foldl_warns_mono
        rw [index_step_warns, if_neg hch, if_pos hprev]
        exact List.mem_append_right _ (List.mem_singleton.mpr rfl)
      · refine ih _ t hmem hch ?_
        have h2 : dget2 ((index_step H slug mig acc t').1).table_transforms t
            ((dget mig.start_shas t).getD (EMPTYSHA H)) =
            dget2 acc.1.table_transforms t
              ((dget mig.start_shas t).getD (EMPTYSHA H)) := by
          unfold dget2
          rw [index_step_tt_other H slug mig acc t' hne]
        rw [h2]
        exact hprev

/-- C6 (amended): when a migration claims to transform a table from a start
hash that is already mapped, `index_migration` records the warning pair and
then overwrites the mapping, so resolution proceeds with the most recently
indexed migration (last-write-wins), never the first-registered one; index
construction is a total function and never aborts. -/
theorem C6_conflict_warns_last_wins (H : String → String) (st : PugPugState)
    (slug : String) (mig : Mig) (table : String)
    (hch : (dget mig.start_shas table).getD (EMPTYSHA H) ≠
      (dget mig.end_shas table).getD (EMPTYSHA H))
    (hprev : (dget2 st.table_transforms table
      ((dget mig.start_shas table).getD (EMPTYSHA H))).isSome = true) :
    (table, (dget mig.start_shas table).getD (EMPTYSHA H)) ∈
      (index_migration H st slug mig).2 ∧
    dget2 ((index_migration H st slug mig).1).table_transforms table
      ((dget mig.start_shas table).getD (EMPTYSHA H)) = some slug := by
  have hmem : table ∈
      sortKeys ((dkeys mig.start_shas ++ dkeys mig.end_shas).dedup) :=
    changed_mem_names H mig table hch
  have hnd : (sortKeys ((dkeys mig.start_shas ++
      dkeys mig.end_shas).dedup)).Nodup :=
    sortKeys_nodup (List.nodup_dedup _)
  constructor
  · unfold index_migration
    exact index_foldl_warns_mem H slug mig _ _ table hmem hch hprev
  · unfold index_migration
    unfold dget2
    rw [index_foldl_tt_mem H slug mig _ _ table hnd hmem]
    simp only [if_neg hch, Option.getD_some]
    exact dget_dinsert_self _ _ _

/-- Witness for C6's amended behavior: indexing a second migration from the
same (table, start hash) yields the warning pair and the second slug. -/
theorem C6_witness :
    ("t", "h1") ∈ (index_migration (fun s => s)
      ((index_migration (fun s => s) empty_state "m1"
        { comment := "c", start_shas := [("t", "h1")],
          end_shas := [("t", "h2")], sql_sha := "q" }).1) "m2"
      { comment := "d", start_shas := [("t", "h1")],
        end_shas := [("t", "h3")], sql_sha := "r" }).2 ∧
    dget2 ((index_migration (fun s => s)
      ((index_migration (fun s => s) empty_state "m1"
        { comment := "c", start_shas := [("t", "h1")],
          end_shas := [("t", "h2")], sql_sha := "q" }).1) "m2"
      { comment := "d", start_shas := [("t", "h1")],
        end_shas := [("t", "h3")], sql_sha := "r" }).1).table_transforms
      "t" "h1" = some "m2" :=
  C6_conflict_warns_last_wins (fun s => s)
    ((index_migration (fun s => s) empty_state "m1"
      { comment := "c", start_shas := [("t", "h1")],
        end_shas := [("t", "h2")], sql_sha := "q" }).1) "m2"
    { comment := "d", start_shas := [("t", "h1")],
      end_shas := [("t", "h3")], sql_sha := "r" } "t"
    (by decide) (by decide)

/-- C6 counterexample: after recording two migrations that both transform
table "t" from hash "h1" (in registration order "m1" then "m2"), the index
maps ("t", "h1") to "m2", the most recently registered slug — not the
first-registered "m1" the claim asserts. -/
theorem C6_counterexample :
    dget2 (add_migration (fun s => s)
      (add_migration (fun s => s) empty_state "m1" "c" "q"
        [("t", { sql := "TA", sha := "h1" })]
        [("t", { sql := "TB", sha := "h2" })]) "m2" "d" "r"
      [("t", { sql := "TA", sha := "h1" })]
      [("t", { sql := "TC", sha := "h3" })]).table_transforms "t" "h1" =
      some "m2" ∧ ("m2" : String) ≠ "m1" := by
  constructor
  · rfl
  · decide

/-! ## Claim C3: advanced resolution -/

/-- The tables walked by `find_next_migration_advanced`:
`set(db_snap) | set(self.tables)` (modelled sorted). -/
def adv_considered (st : PugPugState) (db_snap : Snap) : List String :=
  sortKeys ((dkeys db_snap ++ dkeys st.tables).dedup)

/-- The transform lookup of the advanced resolver:
`table_transforms.get(table, {}).get(live_sha, None)`. -/
def adv_transform (H : String → String) (st : PugPugState) (db_shas : Shas)
    (table : String) : Option String :=
  dget2 st.table_transforms table ((dget db_shas table).getD (EMPTYSHA H))

/-- The error component of one advanced-resolution step. -/
theorem adv_step_fst (H : String → String) (st : PugPugState) (db_shas : Shas)
    (acc : List String × List (String × List String)) (t : String) :
    (adv_step H st db_shas acc t).1 =
      acc.1 ++ (if adv_transform H st db_shas t = none ∧
        (dget db_shas t).getD (EMPTYSHA H) ∉ st.seen then [t] else []) := by
  unfold adv_step adv_transform
  cases hm : dget2 st.table_transforms t ((dget db_shas t).getD (EMPTYSHA H))
  · by_cases hs : (dget db_shas t).getD (EMPTYSHA H) ∈ st.seen
    · simp [hm, hs]
    · simp [hm, hs]
  · simp [hm]

/-- The grouping component of one advanced-resolution step. -/
theorem adv_step_snd (H : String → String) (st : PugPugState) (db_shas : Shas)
    (acc : List String × List (String × List String)) (t : String) :
    (adv_step H st db_shas acc t).2 =
      match adv_transform H st db_shas t with
      | none => acc.2
      | some slug => dinsert acc.2 slug (((dget acc.2 slug).getD []) ++ [t]) := by
  unfold adv_step adv_transform
  cases hm : dget2 st.table_transforms t ((dget db_shas t).getD (EMPTYSHA H))
  · simp only [hm]
    split <;> rfl
  · simp only [hm]

/-- The error list accumulated by the advanced scan is exactly the tables
with no applicable transform and an unseen live hash, in scan order. -/
theorem adv_foldl_err (H : String → String) (st : PugPugState)
    (db_shas : Shas) :
    ∀ (l : List String) (acc : List String × List (String × List String)),
      (l.foldl (adv_step H st db_shas) acc).1 =
        acc.1 ++ l.filter (fun t => decide (adv_transform H st db_shas t =
          none ∧ (dget db_shas t).getD (EMPTYSHA H) ∉ st.seen)) := by
  intro l
  induction l with
  | nil => intro acc; simp
  | cons t rest ih =>
    intro acc
    rw [List.foldl_cons, ih]
    have hstep : (adv_step H st db_shas acc t).1 = acc.1 ++
        (if adv_transform H st db_shas t = none ∧
          (dget db_shas t).getD (EMPTYSHA H) ∉ st.seen then [t] else []) :=
      adv_step_fst H st db_shas acc t
    rw [hstep, List.filter_cons]
    by_cases hc : adv_transform H st db_shas t = none ∧
        (dget db_shas t).getD (EMPTYSHA H) ∉ st.seen
    · simp [hc]
    · simp [hc]

/-- Closed form for a slug's group along the advanced scan. -/
theorem adv_foldl_groups (H : String → String) (st : PugPugState)
    (db_shas : Shas) (slug : String) :
    ∀ (l : List String) (acc : List String × List (String × List String)),
      dget ((l.foldl (adv_step H st db_shas) acc).2) slug =
        match dget acc.2 slug,
            l.filter (fun t => adv_transform H st db_shas t == some slug) with
        | none, [] => none
        | p, ms => some (p.getD [] ++ ms) := by
  intro l
  induction l with
  | nil =>
    intro acc
    cases hp : dget acc.2 slug
    · simp [hp]
    · simp [hp]
  | cons t rest ih =>
    intro acc
    rw [List.foldl_cons, ih]
    cases hm : adv_transform H st db_shas t with
    | none =>
      have hstep : (adv_step H st db_shas acc t).2 = acc.2 := by
        rw [adv_step_snd, hm]
      have hf : (adv_transform H st db_shas t == some slug) = false := by
        rw [hm]; rfl
      rw [hstep, List.filter_cons, hf]
      simp
    | some slug' =>
      have hstep : (adv_step H st db_shas acc t).2 =
          dinsert acc.2 slug' (((dget acc.2 slug').getD []) ++ [t]) := by
        rw [adv_step_snd, hm]
      rw [hstep]
      by_cases hsl : slug' = slug
      · subst hsl
        rw [dget_dinsert_self]
        have hf : (adv_transform H st db_shas t == some slug') = true := by
          rw [hm]; simp
        rw [List.filter_cons, hf]
        cases hp : dget acc.2 slug'
        · simp [hp]
        · simp [hp]
      · have hne : slug ≠ slug' := fun hc => hsl hc.symm
        rw [dget_dinsert_ne _ _ hne]
        have hf : (adv_transform H st db_shas t == some slug) = false := by
          rw [hm]; simp [hsl]
        rw [List.filter_cons, hf]
        simp

/-- The advanced scan's grouping is empty iff it started empty and no walked
table has an applicable transform. -/
theorem adv_foldl_snd_nil_iff (H : String → String) (st : PugPugState)
    (db_shas : Shas) :
    ∀ (l : List String) (acc : List String × List (String × List String)),
      ((l.foldl (adv_step H st db_shas) acc).2 = [] ↔
        acc.2 = [] ∧ ∀ t ∈ l, adv_transform H st db_shas t = none) := by
  intro l
  induction l with
  | nil => intro acc; simp
  | cons t rest ih =>
    intro acc
    rw [List.foldl_cons, ih]
    cases hm : adv_transform H st db_shas t with
    | none =>
      have hstep : (adv_step H st db_shas acc t).2 = acc.2 := by
        rw [adv_step_snd, hm]
      rw [hstep]
      simp only [List.mem_cons]
      constructor
      · rintro ⟨h1, h2⟩
        exact ⟨h1, fun x hx => hx.elim (fun he => he ▸ hm) (h2 x)⟩
      · rintro ⟨h1, h2⟩
        exact ⟨h1, fun x hx => h2 x (Or.inr hx)⟩
    | some slug =>
      have hstep : (adv_step H st db_shas acc t).2 =
          dinsert acc.2 slug (((dget acc.2 slug).getD []) ++ [t]) := by
        rw [adv_step_snd, hm]
      rw [hstep]
      constructor
      · rintro ⟨h1, _⟩
        exact absurd h1 (dinsert_ne_nil _ _ _)
      · rintro ⟨_, h2⟩
        have := h2 t (List.mem_cons_self _ _)
        rw [hm] at this
        cases this

/-- The group stored for a slug by the advanced scan: the walked tables
whose transform points at that slug, or no entry when there are none. -/
theorem adv_scan_groups (H : String → String) (st : PugPugState)
    (db_snap : Snap) (slug : String) :
    dget (adv_scan H st db_snap).2 slug =
      (if (adv_considered st db_snap).filter
          (fun t => adv_transform H st (snap_to_shas db_snap) t ==
            some slug) = []
       then none
       else some ((adv_considered st db_snap).filter
          (fun t => adv_transform H st (snap_to_shas db_snap) t ==
            some slug))) := by
  have h := adv_foldl_groups H st (snap_to_shas db_snap) slug
    (adv_considered st db_snap) ([], [])
  by_cases hfl : (adv_considered st db_snap).filter
      (fun t => adv_transform H st (snap_to_shas db_snap) t == some slug) = []
  · rw [hfl] at h
    rw [if_pos hfl]
    exact h
  · rw [if_neg hfl]
    cases hflc : (adv_considered st db_snap).filter
        (fun t => adv_transform H st (snap_to_shas db_snap) t ==
          some slug) with
    | nil => exact absurd hflc hfl
    | cons x xs =>
      rw [hflc] at h
      exact h

/-- C3 (amended): the advanced resolver's grouping maps a slug to exactly
the walked tables whose transform points at it (so a slug appears iff some
table points to it); the error tables are exactly those with no transform
and an unseen live hash; and the returned value is absent iff no walked
table has an applicable transform — which can happen while the error list is
non-empty, so an absent result does not imply an error-free, up-to-date
database. -/
theorem C3_advanced_characterizes (H : String → String) (st : PugPugState)
    (db_snap : Snap) :
    (∀ t, t ∈ (find_next_migration_advanced H st db_snap).1 ↔
      (t ∈ adv_considered st db_snap ∧
        adv_transform H st (snap_to_shas db_snap) t = none ∧
        (dget (snap_to_shas db_snap) t).getD (EMPTYSHA H) ∉ st.seen)) ∧
    (∀ slug group, dget (adv_scan H st db_snap).2 slug = some group →
      ∀ t, t ∈ group ↔ (t ∈ adv_considered st db_snap ∧
        adv_transform H st (snap_to_shas db_snap) t = some slug)) ∧
    (∀ slug, (∃ group, dget (adv_scan H st db_snap).2 slug = some group) ↔
      ∃ t ∈ adv_considered st db_snap,
        adv_transform H st (snap_to_shas db_snap) t = some slug) ∧
    ((find_next_migration_advanced H st db_snap).2 = none ↔
      ∀ t ∈ adv_considered st db_snap,
        adv_transform H st (snap_to_shas db_snap) t = none) := by
  have hscan : adv_scan H st db_snap =
      (adv_considered st db_snap).foldl
        (adv_step H st (snap_to_shas db_snap)) ([], []) := rfl
  have hnil := adv_foldl_snd_nil_iff H st (snap_to_shas db_snap)
    (adv_considered st db_snap) ([], [])
  refine ⟨?_, ?_, ?_, ?_⟩
  · intro t
    have h1 : (find_next_migration_advanced H st db_snap).1 =
        (adv_scan H st db_snap).1 := rfl
    rw [h1, hscan, adv_foldl_err H st (snap_to_shas db_snap)
      (adv_considered st db_snap) ([], []), List.nil_append,
      List.mem_filter, decide_eq_true_eq]
  · intro slug group hsome t
    rw [adv_scan_groups] at hsome
    by_cases hfl : (adv_considered st db_snap).filter
        (fun t => adv_transform H st (snap_to_shas db_snap) t ==
          some slug) = []
    · rw [if_pos hfl] at hsome
      cases hsome
    · rw [if_neg hfl] at hsome
      have hg : group = (adv_considered st db_snap).filter
          (fun t => adv_transform H st (snap_to_shas db_snap) t ==
            some slug) := (Option.some_inj.mp hsome).symm
      subst hg
      rw [List.mem_filter, beq_iff_eq]
  · intro slug
    rw [adv_scan_groups]
    by_cases hfl : (adv_considered st db_snap).filter
        (fun t => adv_transform H st (snap_to_shas db_snap) t ==
          some slug) = []
    · rw [if_pos hfl]
      constructor
      · rintro ⟨g, hg⟩
        cases hg
      · rintro ⟨t, ht, htr⟩
        have hmem : t ∈ (adv_considered st db_snap).filter
            (fun t => adv_transform H st (snap_to_shas db_snap) t ==
              some slug) := List.mem_filter.mpr ⟨ht, by simp [htr]⟩
        rw [hfl] at hmem
        cases hmem
    · rw [if_neg hfl]
      constructor
      · intro _
        rcases List.exists_mem_of_ne_nil _ hfl with ⟨x, hx⟩
        rcases List.mem_filter.mp hx with ⟨hmem, hpred⟩
        exact ⟨x, hmem, beq_iff_eq.mp hpred⟩
      · intro _
        exact ⟨_, rfl⟩
  · have h2 : (find_next_migration_advanced H st db_snap).2 =
        (if (adv_scan H st db_snap).2.isEmpty then none
         else some (adv_scan H st db_snap).2) := rfl
    rw [h2]
    constructor
    · intro hnone
      by_cases hempty : (adv_scan H st db_snap).2.isEmpty = true
      · have hl : (adv_scan H st db_snap).2 = [] := List.isEmpty_iff.mp hempty
        rw [hscan] at hl
        exact (hnil.mp hl).2
      · rw [if_neg hempty] at hnone
        cases hnone
    · intro hall
      have hl : (adv_scan H st db_snap).2 = [] := by
        rw [hscan]
        exact hnil.mpr ⟨rfl, hall⟩
      rw [hl]
      rfl

/-- Witness for C3's amended behavior: on the concrete state below, the
error characterization holds for table "a". -/
theorem C3_witness :
    "a" ∈ (find_next_migration_advanced (fun s => s)
        (load_state (fun s => s) (fun _ => [("h1", "SQL")])
          [("m1", { comment := "c", start_shas := [],
                    end_shas := [("a", "h1")], sql_sha := "q" })])
        [("a", { sql := "X", sha := "hX" })]).1 ↔
      ("a" ∈ adv_considered
          (load_state (fun s => s) (fun _ => [("h1", "SQL")])
            [("m1", { comment := "c", start_shas := [],
                      end_shas := [("a", "h1")], sql_sha := "q" })])
          [("a", { sql := "X", sha := "hX" })] ∧
        adv_transform (fun s => s)
          (load_state (fun s => s) (fun _ => [("h1", "SQL")])
            [("m1", { comment := "c", start_shas := [],
                      end_shas := [("a", "h1")], sql_sha := "q" })])
          (snap_to_shas [("a", { sql := "X", sha := "hX" })]) "a" = none ∧
        (dget (snap_to_shas [("a", { sql := "X", sha := "hX" })]) "a").getD
            (EMPTYSHA (fun s => s)) ∉
          (load_state (fun s => s) (fun _ => [("h1", "SQL")])
            [("m1", { comment := "c", start_shas := [],
                      end_shas := [("a", "h1")], sql_sha := "q" })]).seen) :=
  (C3_advanced_characterizes (fun s => s)
    (load_state (fun s => s) (fun _ => [("h1", "SQL")])
      [("m1", { comment := "c", start_shas := [],
                end_shas := [("a", "h1")], sql_sha := "q" })])
    [("a", { sql := "X", sha := "hX" })]).1 "a"

/-- C3 counterexample: a state with one recorded migration and a snapshot
whose only table is at an unrecognized hash.  Advanced resolution returns an
absent result (`None`) while its error list is non-empty — refuting "an
empty/absent result occurs exactly when the database is fully up to date
with no pending work and no errors" (the errors, moreover, are only printed,
never part of the return value). -/
theorem C3_counterexample :
    (find_next_migration_advanced (fun s => s)
        (load_state (fun s => s) (fun _ => [("h1", "SQL")])
          [("m1", { comment := "c", start_shas := [],
                    end_shas := [("a", "h1")], sql_sha := "q" })])
        [("a", { sql := "X", sha := "hX" })]).2 = none ∧
    (find_next_migration_advanced (fun s => s)
        (load_state (fun s => s) (fun _ => [("h1", "SQL")])
          [("m1", { comment := "c", start_shas := [],
                    end_shas := [("a", "h1")], sql_sha := "q" })])
        [("a", { sql := "X", sha := "hX" })]).1 = ["a"] := by
  constructor
  · rfl
  · rfl

/-! ## Claim C7: missing tables versus explicit EMPTYSHA entries -/

/-- The validator's live-hash reads cannot tell a missing table from one
explicitly recorded at `EMPTYSHA` (the defaulted lookup hides it). -/
theorem live_sha_append_empty (H : String → String) (snap : Snap)
    (T q : String) :
    live_sha H (snap ++ [(T, { sql := q, sha := EMPTYSHA H })]) =
      live_sha H snap := by
  funext name
  unfold live_sha
  rw [dget_snap_to_shas, dget_snap_to_shas, dget_append]
  cases hd : dget snap name with
  | some info => rfl
  | none =>
    by_cases hT : name = T
    · subst hT
      simp [dget]
    · simp [dget, hT]

/-- `check_validity` treats a snapshot missing a table exactly like the same
snapshot with the table mapped to `EMPTYSHA`. -/
theorem check_validity_mig_append_empty (H : String → String) (mig : Mig)
    (snap : Snap) (postrun : Bool) (T q : String) :
    check_validity_mig H mig
        (snap ++ [(T, { sql := q, sha := EMPTYSHA H })]) postrun =
      check_validity_mig H mig snap postrun := by
  rw [check_validity_mig_eq, check_validity_mig_eq, live_sha_append_empty]

/-- The advanced scan only consumes the considered-table set and the
defaulted live hashes, so snapshots agreeing on those scan identically. -/
theorem adv_scan_congr (H : String → String) (st : PugPugState)
    (snapA snapB : Snap)
    (hcons : adv_considered st snapA = adv_considered st snapB)
    (hsha : ∀ t, (dget (snap_to_shas snapA) t).getD (EMPTYSHA H) =
      (dget (snap_to_shas snapB) t).getD (EMPTYSHA H)) :
    adv_scan H st snapA = adv_scan H st snapB := by
  have hA : adv_scan H st snapA =
      (sortKeys ((dkeys snapA ++ dkeys st.tables).dedup)).foldl
        (adv_step H st (snap_to_shas snapA)) ([], []) := rfl
  have hB : adv_scan H st snapB =
      (sortKeys ((dkeys snapB ++ dkeys st.tables).dedup)).foldl
        (adv_step H st (snap_to_shas snapB)) ([], []) := rfl
  have hstep : adv_step H st (snap_to_shas snapA) =
      adv_step H st (snap_to_shas snapB) := by
    funext acc t
    unfold adv_step
    rw [hsha t]
  have hcons2 : sortKeys ((dkeys snapA ++ dkeys st.tables).dedup) =
      sortKeys ((dkeys snapB ++ dkeys st.tables).dedup) := hcons
  rw [hA, hB, hstep, hcons2]

/-- For a table the state already tracks, advanced resolution is unchanged
by making its absence explicit as an `EMPTYSHA` snapshot entry. -/
theorem find_next_advanced_append_empty (H : String → String)
    (st : PugPugState) (snap : Snap) (T q : String)
    (hT : T ∈ dkeys st.tables) :
    find_next_migration_advanced H st
        (snap ++ [(T, { sql := q, sha := EMPTYSHA H })]) =
      find_next_migration_advanced H st snap := by
  have hcons : adv_considered st
      (snap ++ [(T, { sql := q, sha := EMPTYSHA H })]) =
      adv_considered st snap := by
    unfold adv_considered
    apply sortKeys_dedup_congr
    intro x
    have hk : dkeys (snap ++ [(T, { sql := q, sha := EMPTYSHA H })]) =
        dkeys snap ++ [T] := by
      simp [dkeys]
    rw [hk]
    simp only [List.mem_append, List.mem_singleton]
    constructor
    · rintro ((hx | hx) | hx)
      · exact Or.inl hx
      · exact Or.inr (hx ▸ hT)
      · exact Or.inr hx
    · rintro (hx | hx)
      · exact Or.inl (Or.inl hx)
      · exact Or.inr hx
  have hsha : ∀ t, (dget (snap_to_shas
      (snap ++ [(T, { sql := q, sha := EMPTYSHA H })])) t).getD (EMPTYSHA H) =
      (dget (snap_to_shas snap) t).getD (EMPTYSHA H) :=
    fun t => congrFun (live_sha_append_empty H snap T q) t
  have hscan2 := adv_scan_congr H st _ _ hcons hsha
  unfold find_next_migration_advanced
  rw [hscan2]

/-- C7 (amended): the validator and — for tables the state already tracks —
the advanced resolver treat a snapshot missing a table exactly like the same
snapshot with that table explicitly mapped to `EMPTYSHA`: their lookups
default missing tables to `EMPTYSHA`.  The joint hash (`snap_sha`), however,
covers only the keys present in the snapshot, so simple resolution (and
`is_up_to_date`) distinguishes omission from an explicit `EMPTYSHA` entry. -/
theorem C7_missing_table_vs_empty (H : String → String) (st : PugPugState)
    (mig : Mig) (snap : Snap) (postrun : Bool) (T q : String)
    (hT : T ∈ dkeys st.tables) :
    check_validity_mig H mig
        (snap ++ [(T, { sql := q, sha := EMPTYSHA H })]) postrun =
      check_validity_mig H mig snap postrun ∧
    find_next_migration_advanced H st
        (snap ++ [(T, { sql := q, sha := EMPTYSHA H })]) =
      find_next_migration_advanced H st snap :=
  ⟨check_validity_mig_append_empty H mig snap postrun T q,
   find_next_advanced_append_empty H st snap T q hT⟩

/-- Witness for C7's amended behavior on a concrete tracked table. -/
theorem C7_witness :
    check_validity_mig (fun s => s)
        { comment := "c", start_shas := [("t", "h1")],
          end_shas := [("t", "h2")], sql_sha := "q" }
        ([] ++ [("t", { sql := "X", sha := EMPTYSHA (fun s => s) })]) false =
      check_validity_mig (fun s => s)
        { comment := "c", start_shas := [("t", "h1")],
          end_shas := [("t", "h2")], sql_sha := "q" } [] false ∧
    find_next_migration_advanced (fun s => s)
        { seq := [], table_transforms := [], simple_starts := [], seen := [],
          tables := [("t", [])] }
        ([] ++ [("t", { sql := "X", sha := EMPTYSHA (fun s => s) })]) =
      find_next_migration_advanced (fun s => s)
        { seq := [], table_transforms := [], simple_starts := [], seen := [],
          tables := [("t", [])] } [] :=
  C7_missing_table_vs_empty (fun s => s)
    { seq := [], table_transforms := [], simple_starts := [], seen := [],
      tables := [("t", [])] }
    { comment := "c", start_shas := [("t", "h1")],
      end_shas := [("t", "h2")], sql_sha := "q" } [] false "t" "X" (by decide)

/-- C7 counterexample: simple resolution does distinguish a missing table
from one mapped to `EMPTYSHA`.  With one recorded migration starting from
`{"t": EMPTYSHA}`, the empty snapshot (table omitted) resolves to nothing
while the snapshot with "t" explicitly at `EMPTYSHA` resolves to the
migration — the two behaviors differ, refuting the claim for
`find_next_migration_simple`. -/
theorem C7_counterexample :
    find_next_migration_simple (fun s => s)
        (load_state (fun s => s) (fun _ => [])
          [("m1", { comment := "c", start_shas := [("t", "")],
                    end_shas := [("t", "h1")], sql_sha := "q" })])
        ([] : Snap) = none ∧
    find_next_migration_simple (fun s => s)
        (load_state (fun s => s) (fun _ => [])
          [("m1", { comment := "c", start_shas := [("t", "")],
                    end_shas := [("t", "h1")], sql_sha := "q" })])
        [("t", { sql := "X", sha := "" })] = some "m1" := by
  constructor
  · rfl
  · rfl
